import Mathlib

/-!
Shallow embedding of the mtm generic set (repository fisher6/Set_cpp).

The repository has two layers:
* a type-erased C engine declared in src/mtm_set.h (Set, SetResult, setAdd,
  setRemove, setGetFirst, setGetNext, setGetElement, setGetSize, setClear,
  setCopy, setCreate).  Its implementation file is not in the repository, so
  those operations are modelled from the specification (section 4.1) and the
  header documentation; each such definition carries a doc comment starting
  with "Modelled from the spec:".
* a typed C++ adapter in src/mtm_set.hpp (class mtm::set and its
  const_iterator).  Those operations are translated from the source.

The element type T is an abstract type alpha; the caller-supplied comparison
CmpFcn becomes a boolean function lt, and the operator== used by find becomes
a boolean function beq.  The engine state (the ordered sequence of element
slots owned by a Set handle) is a Lean list; an engine iterator (SetIterator,
a pointer to a slot or NULL) is an Option Nat index into that sequence, with
none standing for NULL.  Exceptions become an Except value; fallible adapter
operations return their result together with the final container state.
-/

namespace mtm

/-- Result codes of the C engine, SetResult_t in mtm_set.h. -/
inductive SetResult : Type where
  | SET_SUCCESS : SetResult
  | SET_OUT_OF_MEMORY : SetResult
  | SET_NULL_ARGUMENT : SetResult
  | SET_ITEM_ALREADY_EXISTS : SetResult
  | SET_ITEM_DOES_NOT_EXIST : SetResult
  deriving DecidableEq, Repr

/-- Exception kinds raised by the adapter in mtm_set.hpp: the base class
set::Exception, and its subclasses ElementNotFound and InvalidIterator. -/
inductive SetError : Type where
  | base : SetError
  | elementNotFound : SetError
  | invalidIterator : SetError
  deriving DecidableEq, Repr

variable {α : Type}

/-- CompareElementFcn of mtm_set.hpp: maps the boolean order CmpFcn (here lt)
to the three-way sign convention of the engine: -1 when left is smaller,
1 when right is smaller, 0 otherwise.  (The NULL guard of the source cannot
fire in the model: the adapter never hands the engine a null element.) -/
def CompareElementFcn (lt : α → α → Bool) (left right : α) : Int :=
  if lt left right then -1 else if lt right left then 1 else 0

/-- CopyElementFcn of mtm_set.hpp: deep-copies an element with the copy
constructor of T.  In a value-semantics embedding the deep copy of a value
is the value itself. -/
def CopyElementFcn (lmnt : α) : α := lmnt

/-- DestroyElementFcn of mtm_set.hpp: releases an element; a no-op on
values. -/
def DestroyElementFcn (_lmnt : α) : Unit := ()

/-- Modelled from the spec: the engine implementation of setAdd is not in the
sources.  Spec 4.1: setAdd locates the ascending insertion point by scanning
the ordered sequence, terminating at the first element not less than the
target; if an equal element exists it reports ItemAlreadyExists and leaves
the set unchanged; otherwise it deep-copies the element (allocOk models
whether that copy succeeds; on failure it reports OutOfMemory with the set
unchanged) and inserts it, preserving strict ascending order. -/
def setAdd (lt : α → α → Bool) (allocOk : Bool) : List α → α → SetResult × List α
  | [], x =>
    if allocOk then (SetResult.SET_SUCCESS, [x])
    else (SetResult.SET_OUT_OF_MEMORY, [])
  | e :: rest, x =>
    if CompareElementFcn lt e x < 0 then
      let r := setAdd lt allocOk rest x
      (r.1, e :: r.2)
    else if CompareElementFcn lt e x = 0 then
      (SetResult.SET_ITEM_ALREADY_EXISTS, e :: rest)
    else if allocOk then (SetResult.SET_SUCCESS, x :: e :: rest)
    else (SetResult.SET_OUT_OF_MEMORY, e :: rest)

/-- Modelled from the spec: the engine implementation of setRemove is not in
the sources.  Spec 4.1: setRemove locates a stored element comparing equal to
the argument; if absent it reports ItemDoesNotExist and leaves the set
unchanged; otherwise it frees that element and removes its slot. -/
def setRemove (lt : α → α → Bool) : List α → α → SetResult × List α
  | [], _ => (SetResult.SET_ITEM_DOES_NOT_EXIST, [])
  | e :: rest, x =>
    if CompareElementFcn lt e x = 0 then (SetResult.SET_SUCCESS, rest)
    else
      let r := setRemove lt rest x
      (r.1, e :: r.2)

/-- Modelled from the spec: setClear frees every element and yields an empty
set. -/
def setClear (_s : List α) : List α := []

/-- Modelled from the spec: setGetSize returns the element count (the -1
sentinel for a NULL handle never arises here because the adapter only calls
it on its owned non-null handle). -/
def setGetSize (s : List α) : Int := s.length

/-- Modelled from the spec: setGetFirst returns the position of the minimal
element, or NULL (none) when the set is empty.  In the ordered-sequence model
the minimal element sits at index 0. -/
def setGetFirst (s : List α) : Option Nat :=
  if s.isEmpty then none else some 0

/-- Modelled from the spec: setGetNext advances a position to the next
element in ascending order, or NULL (none) when the position was the last
element or is invalid. -/
def setGetNext (s : List α) (iter : Option Nat) : Option Nat :=
  match iter with
  | none => none
  | some i => if i + 1 < s.length then some (i + 1) else none

/-- Modelled from the spec: setGetElement returns the element at a position,
or NULL (none) when the position is invalid or past the end. -/
def setGetElement (s : List α) (iter : Option Nat) : Option α :=
  match iter with
  | none => none
  | some i => s[i]?

/-- Modelled from the spec: setCopy builds a new handle holding a deep copy
of every element through the stored copy function, or NULL (none) when an
allocation fails (allocOk models allocation success), leaving the original
untouched. -/
def setCopy (copyElement : α → α) (allocOk : Bool) (s : List α) : Option (List α) :=
  if allocOk then some (s.map copyElement) else none

/-- Modelled from the spec: setCreate allocates a new empty set, or NULL
(none) when allocation fails. -/
def setCreate (allocOk : Bool) : Option (List α) :=
  if allocOk then some ([] : List α) else none

/-- The adapter iterator, class set::const_iterator of mtm_set.hpp: it stores
the owning set (field m_Owner, here the owning engine state) and the current
engine position (field m_Current). -/
structure const_iterator (α : Type) : Type where
  m_Owner : List α
  m_Current : Option Nat
  deriving Repr

/-- operator++ of const_iterator: replaces m_Current with
setGetNext(m_Owner->m_CSet, m_Current). -/
def const_iterator.inc (it : const_iterator α) : const_iterator α :=
  { it with m_Current := setGetNext it.m_Owner it.m_Current }

/-- operator* of const_iterator: reads setGetElement(m_Owner->m_CSet,
m_Current) and throws InvalidIterator when it is NULL. -/
def const_iterator.deref (it : const_iterator α) : Except SetError α :=
  match setGetElement it.m_Owner it.m_Current with
  | none => Except.error SetError.invalidIterator
  | some element => Except.ok element

/-- operator== of const_iterator: compares only the engine positions
m_Current, ignoring m_Owner. -/
def const_iterator.eq (it other : const_iterator α) : Bool :=
  it.m_Current == other.m_Current

/-- operator!= of const_iterator: the negation of operator==. -/
def const_iterator.ne (it other : const_iterator α) : Bool :=
  !(const_iterator.eq it other)

/-- set::begin of mtm_set.hpp: an iterator owned by this set whose position
is setGetFirst of the engine state. -/
def set.begin (s : List α) : const_iterator α :=
  { m_Owner := s, m_Current := setGetFirst s }

/-- The loop of set::end of mtm_set.hpp: starting from a position, advance
with operator++ (that is, setGetNext) while the position is not NULL.  The
step of setGetNext is matched on so that the recursion visibly terminates. -/
def endLoop (s : List α) (cur : Option Nat) : Option Nat :=
  match cur with
  | none => none
  | some i =>
    match h : setGetNext s (some i) with
    | none => none
    | some j => endLoop s (some j)
  termination_by match cur with | none => 0 | some i => s.length - i
  decreasing_by
    simp only [setGetNext] at h
    split at h
    · simp only [Option.some.injEq] at h
      omega
    · exact absurd h (by simp)

/-- set::end of mtm_set.hpp: begin(), then advance while m_Current is not
NULL; end is a Lean keyword, hence the name endIter. -/
def set.endIter (s : List α) : const_iterator α :=
  { set.begin s with m_Current := endLoop s (set.begin s).m_Current }

/-- set::cbegin of mtm_set.hpp: returns begin(). -/
def set.cbegin (s : List α) : const_iterator α := set.begin s

/-- set::cend of mtm_set.hpp: returns end(). -/
def set.cend (s : List α) : const_iterator α := set.endIter s

/-- set::size of mtm_set.hpp: forwards to setGetSize on the owned handle. -/
def set.size (s : List α) : Int := setGetSize s

/-- The loop of set::find of mtm_set.hpp: for (it = begin(); it != end();
++it) { if (*it == element) return it; } throw ElementNotFound().  The
position of end() is always NULL (lemma endLoop_eq_none below), so the loop
guard is: the current position is not NULL.  The body dereferences the
iterator (which throws InvalidIterator on an invalid position, propagated
out of find) and compares with operator== (beq).  The step of setGetNext is
matched on so that the recursion visibly terminates. -/
def findLoop (beq : α → α → Bool) (s : List α) (x : α) (cur : Option Nat) :
    Except SetError (const_iterator α) :=
  match cur with
  | none => Except.error SetError.elementNotFound
  | some i =>
    match setGetElement s (some i) with
    | none => Except.error SetError.invalidIterator
    | some v =>
      if beq v x then Except.ok { m_Owner := s, m_Current := some i }
      else
        match h : setGetNext s (some i) with
        | none => Except.error SetError.elementNotFound
        | some j => findLoop beq s x (some j)
  termination_by match cur with | none => 0 | some i => s.length - i
  decreasing_by
    simp only [setGetNext] at h
    split at h
    · simp only [Option.some.injEq] at h
      omega
    · exact absurd h (by simp)

/-- set::find of mtm_set.hpp (the mutable overload): runs the find loop from
begin(). -/
def set.find (beq : α → α → Bool) (s : List α) (x : α) :
    Except SetError (const_iterator α) :=
  findLoop beq s x (set.begin s).m_Current

/-- set::find of mtm_set.hpp (the const overload): the same loop from
begin(). -/
def set.find_c (beq : α → α → Bool) (s : List α) (x : α) :
    Except SetError (const_iterator α) :=
  findLoop beq s x (set.begin s).m_Current

/-- set::insert of mtm_set.hpp: submits a transient deep copy of the value
to setAdd; on OutOfMemory throws the base Exception; on ItemAlreadyExists
returns (find(data), false); on success returns (find(data), true).  The
returned pair is the Except value; the second component of the outer pair is
the container state afterward (the state the engine add produced, whether or
not the subsequent find throws). -/
def set.insert (lt beq : α → α → Bool) (allocOk : Bool) (s : List α) (data : α) :
    Except SetError (const_iterator α × Bool) × List α :=
  let r := setAdd lt allocOk s data
  if r.1 = SetResult.SET_OUT_OF_MEMORY then
    (Except.error SetError.base, r.2)
  else if r.1 = SetResult.SET_ITEM_ALREADY_EXISTS then
    (match set.find beq r.2 data with
     | Except.error e => Except.error e
     | Except.ok it => Except.ok (it, false), r.2)
  else
    (match set.find beq r.2 data with
     | Except.error e => Except.error e
     | Except.ok it => Except.ok (it, true), r.2)

/-- set::erase(T const&) of mtm_set.hpp: passes a transient deep copy of the
value to setRemove; when the engine reports ItemDoesNotExist, throws
ElementNotFound.  The second component is the container state afterward. -/
def set.erase (lt : α → α → Bool) (s : List α) (element : α) :
    Except SetError Unit × List α :=
  let r := setRemove lt s element
  if r.1 = SetResult.SET_ITEM_DOES_NOT_EXIST then
    (Except.error SetError.elementNotFound, r.2)
  else (Except.ok (), r.2)

/-- set::erase(const_iterator) of mtm_set.hpp: erase(*iter); dereferencing
throws InvalidIterator when iter does not point to an element, and that
exception propagates with the container unchanged. -/
def set.eraseIter (lt : α → α → Bool) (s : List α) (iter : const_iterator α) :
    Except SetError Unit × List α :=
  match const_iterator.deref iter with
  | Except.error e => (Except.error e, s)
  | Except.ok v => set.erase lt s v

/-- set::clear of mtm_set.hpp: forwards to setClear on the owned handle. -/
def set.clear (s : List α) : List α := setClear s

/-- The set copy constructor of mtm_set.hpp: m_CSet = setCopy(source.m_CSet);
throws the base Exception when setCopy returns NULL. -/
def set.copyCtor (copyElement : α → α) (allocOk : Bool) (s : List α) :
    Except SetError (List α) :=
  match setCopy copyElement allocOk s with
  | none => Except.error SetError.base
  | some c => Except.ok c

/-- set::operator= of mtm_set.hpp: when this == &sourceSet (selfAssign),
returns immediately leaving the owned handle untouched; otherwise destroys
the owned handle, then sets it to setCopy(source.m_CSet), throwing the base
Exception when that copy returns NULL — in which case the handle left behind
is the null handle that the completed setDestroy produced.  The target state
is an Option: some when a handle is owned, none for the null handle. -/
def set.assign (copyElement : α → α) (allocOk selfAssign : Bool)
    (target : Option (List α)) (source : List α) :
    Except SetError Unit × Option (List α) :=
  if selfAssign then (Except.ok (), target)
  else
    match setCopy copyElement allocOk source with
    | none => (Except.error SetError.base, none)
    | some c => (Except.ok (), some c)

/-- The values visited when iterating from a position with the iterator
protocol (the range-for of the header documentation): dereference the
current position with setGetElement and advance with setGetNext until the
position is NULL. -/
def iterateFrom (s : List α) (cur : Option Nat) : List α :=
  match cur with
  | none => []
  | some i =>
    match setGetElement s (some i) with
    | none => []
    | some v =>
      match h : setGetNext s (some i) with
      | none => [v]
      | some j => v :: iterateFrom s (some j)
  termination_by match cur with | none => 0 | some i => s.length - i
  decreasing_by
    simp only [setGetNext] at h
    split at h
    · simp only [Option.some.injEq] at h
      omega
    · exact absurd h (by simp)

/-- The values visited when iterating the whole container from begin(). -/
def iterateAll (s : List α) : List α :=
  iterateFrom s (set.begin s).m_Current

/-- The ordering invariant of the engine state: consecutive (indeed all
pairs of) stored elements are strictly ascending under the order lt. -/
def SortedLt (lt : α → α → Bool) (s : List α) : Prop :=
  List.Pairwise (fun a b => lt a b = true) s

/-- The assumption the spec places on the caller-supplied comparison: lt is
a strict total order (irreflexive, transitive, and total on distinct
values). -/
def StrictTotal (lt : α → α → Bool) : Prop :=
  (∀ a, lt a a = false) ∧
  (∀ a b c, lt a b = true → lt b c = true → lt a c = true) ∧
  (∀ a b, a ≠ b → lt a b = true ∨ lt b a = true)

/-- The assumption relating operator== of T (beq, used by find) to equality:
it agrees with value equality. -/
def LawfulEqv (beq : α → α → Bool) : Prop :=
  ∀ a b, beq a b = true ↔ a = b

/-!  Lemmas about the comparison trampoline. -/

theorem cmp_neg_iff (lt : α → α → Bool) (a b : α) :
    CompareElementFcn lt a b < 0 ↔ lt a b = true := by
  unfold CompareElementFcn
  split
  · simp [*]
  · split <;> simp [*]

theorem cmp_zero_iff (lt : α → α → Bool)
    (hirr : ∀ a, lt a a = false)
    (htot : ∀ a b, a ≠ b → lt a b = true ∨ lt b a = true) (a b : α) :
    CompareElementFcn lt a b = 0 ↔ a = b := by
  unfold CompareElementFcn
  constructor
  · intro h
    by_contra hne
    rcases htot a b hne with hl | hl <;> simp [hl] at h
    split at h <;> omega
  · intro h
    subst h
    simp [hirr]

/-!  Lemmas about setAdd. -/

theorem setAdd_alloc_fail (lt : α → α → Bool) (s : List α) (x : α) :
    (setAdd lt false s x).2 = s := by
  induction s with
  | nil => simp [setAdd]
  | cons e rest ih =>
    simp only [setAdd]
    split
    · simpa using ih
    · split
      · rfl
      · simp

theorem setAdd_mem (lt : α → α → Bool)
    (hirr : ∀ a, lt a a = false) (allocOk : Bool) :
    ∀ s : List α, ∀ x : α, SortedLt lt s → x ∈ s →
      setAdd lt allocOk s x = (SetResult.SET_ITEM_ALREADY_EXISTS, s) := by
  intro s
  induction s with
  | nil => intro x _ hx; simp at hx
  | cons e rest ih =>
    intro x hs hx
    rcases List.mem_cons.mp hx with hx | hx
    · subst hx
      have h0 : CompareElementFcn lt x x = 0 := by
        simp [CompareElementFcn, hirr]
      simp [setAdd, h0]
    · have hlt : lt e x = true := (List.pairwise_cons.mp hs).1 x hx
      have hneg : CompareElementFcn lt e x < 0 := (cmp_neg_iff lt e x).mpr hlt
      have hrec := ih x (List.pairwise_cons.mp hs).2 hx
      simp [setAdd, hneg, hrec]

theorem setAdd_not_mem (lt : α → α → Bool)
    (htr : ∀ a b c, lt a b = true → lt b c = true → lt a c = true)
    (htot : ∀ a b, a ≠ b → lt a b = true ∨ lt b a = true) :
    ∀ s : List α, ∀ x : α, SortedLt lt s → x ∉ s →
      (setAdd lt true s x).1 = SetResult.SET_SUCCESS ∧
      (setAdd lt true s x).2.Perm (x :: s) ∧
      SortedLt lt (setAdd lt true s x).2 := by
  intro s
  induction s with
  | nil =>
    intro x _ _
    refine ⟨rfl, ?_, ?_⟩ <;> simp [setAdd, SortedLt]
  | cons e rest ih =>
    intro x hs hx
    have hne : x ≠ e := fun h => hx (h ▸ List.mem_cons_self e rest)
    have hxrest : x ∉ rest := fun h => hx (List.mem_cons_of_mem e h)
    have hsrest : SortedLt lt rest := (List.pairwise_cons.mp hs).2
    by_cases hel : lt e x = true
    · -- keep scanning
      have hneg : CompareElementFcn lt e x < 0 := (cmp_neg_iff lt e x).mpr hel
      obtain ⟨h1, h2, h3⟩ := ih x hsrest hxrest
      refine ⟨?_, ?_, ?_⟩
      · simp [setAdd, hneg, h1]
      · simp only [setAdd, hneg, if_pos]
        exact (h2.cons e).trans (List.Perm.swap x e rest)
      · simp only [setAdd, hneg, if_pos]
        refine List.pairwise_cons.mpr ⟨?_, h3⟩
        intro y hy
        have hy' : y ∈ x :: rest := h2.mem_iff.mp hy
        rcases List.mem_cons.mp hy' with hy' | hy'
        · subst hy'; exact hel
        · exact (List.pairwise_cons.mp hs).1 y hy'
    · -- first element not less than x: insert here
      have hxe : lt x e = true := by
        rcases htot x e hne with h | h
        · exact h
        · exact absurd h hel
      have hnneg : ¬ CompareElementFcn lt e x < 0 := by
        intro h
        exact hel ((cmp_neg_iff lt e x).mp h)
      have hef : lt e x = false := by
        simpa using hel
      have hnzero : CompareElementFcn lt e x ≠ 0 := by
        simp [CompareElementFcn, hef, hxe]
      refine ⟨?_, ?_, ?_⟩
      · simp [setAdd, hnneg, hnzero]
      · simp [setAdd, hnneg, hnzero]
      · simp only [setAdd, hnneg, hnzero, if_neg, if_pos, if_true]
        refine List.pairwise_cons.mpr ⟨?_, hs⟩
        intro y hy
        rcases List.mem_cons.mp hy with hy | hy
        · subst hy; exact hxe
        · exact htr x e y hxe ((List.pairwise_cons.mp hs).1 y hy)

/-!  Lemmas about setRemove. -/

theorem setRemove_not_mem (lt : α → α → Bool) :
    ∀ s : List α, ∀ x : α, (∀ e ∈ s, CompareElementFcn lt e x ≠ 0) →
      setRemove lt s x = (SetResult.SET_ITEM_DOES_NOT_EXIST, s) := by
  intro s
  induction s with
  | nil => intro x _; rfl
  | cons e rest ih =>
    intro x hall
    have hne : CompareElementFcn lt e x ≠ 0 := hall e (List.mem_cons_self e rest)
    have hrec := ih x fun y hy => hall y (List.mem_cons_of_mem e hy)
    simp [setRemove, hne, hrec]

theorem setRemove_mem (lt : α → α → Bool)
    (hirr : ∀ a, lt a a = false)
    (htot : ∀ a b, a ≠ b → lt a b = true ∨ lt b a = true) :
    ∀ s : List α, ∀ x : α, SortedLt lt s → x ∈ s →
      (setRemove lt s x).1 = SetResult.SET_SUCCESS ∧
      (x :: (setRemove lt s x).2).Perm s ∧
      SortedLt lt (setRemove lt s x).2 := by
  intro s
  induction s with
  | nil => intro x _ hx; simp at hx
  | cons e rest ih =>
    intro x hs hx
    by_cases hex : e = x
    · subst hex
      have h0 : CompareElementFcn lt e e = 0 :=
        (cmp_zero_iff lt hirr htot e e).mpr rfl
      refine ⟨?_, ?_, ?_⟩ <;> simp [setRemove, h0]
      exact (List.pairwise_cons.mp hs).2
    · have hnz : CompareElementFcn lt e x ≠ 0 := fun h =>
        hex ((cmp_zero_iff lt hirr htot e x).mp h)
      have hxrest : x ∈ rest := by
        rcases List.mem_cons.mp hx with h | h
        · exact absurd h.symm hex
        · exact h
      obtain ⟨h1, h2, h3⟩ := ih x (List.pairwise_cons.mp hs).2 hxrest
      refine ⟨?_, ?_, ?_⟩
      · simp [setRemove, hnz, h1]
      · simp only [setRemove, hnz, if_neg, ite_false]
        exact List.Perm.trans (List.Perm.swap e x _) (h2.cons e)
      · simp only [setRemove, hnz, if_neg, ite_false]
        refine List.pairwise_cons.mpr ⟨?_, h3⟩
        intro y hy
        have : y ∈ rest := h2.mem_iff.mp (List.mem_cons_of_mem x hy)
        exact (List.pairwise_cons.mp hs).1 y this

theorem setRemove_fail_frame (lt : α → α → Bool) :
    ∀ s : List α, ∀ x : α,
      (setRemove lt s x).1 = SetResult.SET_ITEM_DOES_NOT_EXIST →
      (setRemove lt s x).2 = s := by
  intro s
  induction s with
  | nil => intro x _; rfl
  | cons e rest ih =>
    intro x h
    by_cases hz : CompareElementFcn lt e x = 0
    · simp [setRemove, hz] at h
    · simp only [setRemove, hz, if_neg, ite_false] at h ⊢
      rw [ih x h]

theorem setAdd_sorted (lt : α → α → Bool) (hst : StrictTotal lt)
    (allocOk : Bool) (s : List α) (x : α) (hs : SortedLt lt s) :
    SortedLt lt (setAdd lt allocOk s x).2 := by
  obtain ⟨hirr, htr, htot⟩ := hst
  cases allocOk with
  | false => rw [setAdd_alloc_fail lt s x]; exact hs
  | true =>
    by_cases hx : x ∈ s
    · rw [setAdd_mem lt hirr true s x hs hx]; exact hs
    · exact (setAdd_not_mem lt htr htot s x hs hx).2.2

/-!  Lemmas about the iteration protocol. -/

theorem setGetElement_some (s : List α) (i : Nat) :
    setGetElement s (some i) = s[i]? := rfl

theorem endLoop_eq_none (s : List α) : ∀ cur, endLoop s cur = none := by
  intro cur
  induction cur using endLoop.induct s with
  | case1 => simp [endLoop]
  | case2 i h => rw [endLoop, h]
  | case3 i j h ih => rw [endLoop, h]; exact ih

theorem endIter_current (s : List α) : (set.endIter s).m_Current = none := by
  simp [set.endIter, endLoop_eq_none]

theorem iterateFrom_none (s : List α) : iterateFrom s none = [] := by
  rw [iterateFrom.eq_def]

theorem iterateFrom_elem_none (s : List α) (i : Nat)
    (h : setGetElement s (some i) = none) : iterateFrom s (some i) = [] := by
  rw [iterateFrom.eq_def]
  simp only [h]

theorem iterateFrom_step_last (s : List α) (i : Nat) (v : α)
    (h : setGetElement s (some i) = some v)
    (hnext : setGetNext s (some i) = none) : iterateFrom s (some i) = [v] := by
  rw [iterateFrom.eq_def]
  simp only [h]
  split
  · rfl
  · simp_all

theorem iterateFrom_step (s : List α) (i j : Nat) (v : α)
    (h : setGetElement s (some i) = some v)
    (hnext : setGetNext s (some i) = some j) :
    iterateFrom s (some i) = v :: iterateFrom s (some j) := by
  rw [iterateFrom.eq_def]
  simp only [h]
  split
  · simp_all
  · simp_all

theorem iterateFrom_eq_drop (s : List α) :
    ∀ cur, ∀ i : Nat, cur = some i → i < s.length →
      iterateFrom s (some i) = s.drop i := by
  intro cur
  induction cur using iterateFrom.induct s with
  | case1 => intro i h _; exact absurd h (by simp)
  | case2 i h =>
    intro i' hi' hlen
    cases hi'
    rw [setGetElement_some] at h
    rw [List.getElem?_eq_none_iff] at h
    omega
  | case3 i v h hnext =>
    intro i' hi' hlen
    cases hi'
    have h' : s[i]? = some v := h
    have hnext' : ¬ i + 1 < s.length := by
      by_contra hc
      simp [setGetNext, hc] at hnext
    have hi1 : i + 1 = s.length := by omega
    rw [iterateFrom_step_last s i v h hnext]
    have hdrop : s.drop i = s[i] :: s.drop (i + 1) := List.drop_eq_getElem_cons hlen
    rw [hdrop, hi1, List.drop_length]
    have hv : s[i] = v := by
      rw [List.getElem?_eq_getElem hlen] at h'
      exact Option.some.inj h'
    rw [hv]
  | case4 i v h j hnext ih =>
    intro i' hi' hlen
    cases hi'
    have h' : s[i]? = some v := h
    have hj : j = i + 1 ∧ i + 1 < s.length := by
      simp only [setGetNext] at hnext
      split at hnext
      · exact ⟨(Option.some.inj hnext).symm, by assumption⟩
      · exact absurd hnext (by simp)
    rw [iterateFrom_step s i j v h hnext]
    rw [hj.1] at ih ⊢
    rw [ih (i + 1) rfl hj.2]
    have hdrop : s.drop i = s[i] :: s.drop (i + 1) := List.drop_eq_getElem_cons hlen
    have hv : s[i] = v := by
      rw [List.getElem?_eq_getElem hlen] at h'
      exact Option.some.inj h'
    rw [← hv, ← hdrop]

/-!  Lemmas about the find loop. -/

theorem findLoop_none (beq : α → α → Bool) (s : List α) (x : α) :
    findLoop beq s x none = Except.error SetError.elementNotFound := by
  rw [findLoop.eq_def]

theorem findLoop_elem_none (beq : α → α → Bool) (s : List α) (x : α) (i : Nat)
    (h : setGetElement s (some i) = none) :
    findLoop beq s x (some i) = Except.error SetError.invalidIterator := by
  rw [findLoop.eq_def]
  simp only [h]

theorem findLoop_hit (beq : α → α → Bool) (s : List α) (x : α) (i : Nat) (v : α)
    (h : setGetElement s (some i) = some v) (hb : beq v x = true) :
    findLoop beq s x (some i) =
      Except.ok { m_Owner := s, m_Current := some i } := by
  rw [findLoop.eq_def]
  simp only [h, hb, if_true]

theorem findLoop_miss_last (beq : α → α → Bool) (s : List α) (x : α) (i : Nat)
    (v : α) (h : setGetElement s (some i) = some v) (hb : beq v x = false)
    (hnext : setGetNext s (some i) = none) :
    findLoop beq s x (some i) = Except.error SetError.elementNotFound := by
  rw [findLoop.eq_def]
  simp only [h]
  split
  · simp_all
  · split
    · rfl
    · simp_all

theorem findLoop_miss_step (beq : α → α → Bool) (s : List α) (x : α)
    (i j : Nat) (v : α) (h : setGetElement s (some i) = some v)
    (hb : beq v x = false) (hnext : setGetNext s (some i) = some j) :
    findLoop beq s x (some i) = findLoop beq s x (some j) := by
  rw [findLoop.eq_def]
  simp only [h]
  split
  · simp_all
  · split
    · simp_all
    · simp_all

theorem findLoop_not_found (beq : α → α → Bool) (s : List α) (x : α)
    (hall : ∀ e ∈ s, beq e x = false) :
    ∀ cur, ∀ i : Nat, cur = some i → i < s.length →
      findLoop beq s x (some i) = Except.error SetError.elementNotFound := by
  intro cur
  induction cur using findLoop.induct beq s x with
  | case1 => intro i h _; exact absurd h (by simp)
  | case2 i h =>
    intro i' hi' hlen
    cases hi'
    rw [setGetElement_some, List.getElem?_eq_none_iff] at h
    omega
  | case3 i v h hb =>
    intro i' hi' hlen
    cases hi'
    have hv : v ∈ s := by
      rw [setGetElement_some] at h
      exact List.getElem?_mem h
    exact absurd hb (by simp [hall v hv])
  | case4 i v h hb hnext =>
    intro i' hi' hlen
    cases hi'
    exact findLoop_miss_last beq s x i v h (by simpa using hb) hnext
  | case5 i v h hb j hnext ih =>
    intro i' hi' hlen
    cases hi'
    have hj : j = i + 1 ∧ i + 1 < s.length := by
      simp only [setGetNext] at hnext
      split at hnext
      · exact ⟨(Option.some.inj hnext).symm, by assumption⟩
      · exact absurd hnext (by simp)
    rw [findLoop_miss_step beq s x i j v h (by simpa using hb) hnext]
    exact hj.1 ▸ ih j rfl (hj.1 ▸ hj.2)

theorem find_not_found (beq : α → α → Bool) (s : List α) (x : α)
    (hall : ∀ e ∈ s, beq e x = false) :
    set.find beq s x = Except.error SetError.elementNotFound := by
  unfold set.find set.begin setGetFirst
  cases s with
  | nil => simpa using findLoop_none beq [] x
  | cons e rest =>
    simp only [List.isEmpty_cons, Bool.false_eq_true, ite_false]
    exact findLoop_not_found beq (e :: rest) x hall (some 0) 0 rfl (by simp)

theorem findLoop_found (beq : α → α → Bool) (s : List α) (x : α) :
    ∀ cur, ∀ i : Nat, cur = some i →
      (∃ j : Nat, ∃ v : α, i ≤ j ∧ s[j]? = some v ∧ beq v x = true) →
      ∃ k : Nat, ∃ v : α,
        findLoop beq s x (some i) = Except.ok { m_Owner := s, m_Current := some k } ∧
        s[k]? = some v ∧ beq v x = true := by
  intro cur
  induction cur using findLoop.induct beq s x with
  | case1 => intro i h _; exact absurd h (by simp)
  | case2 i h =>
    intro i' hi' hex
    cases hi'
    obtain ⟨j, v, hij, hjv, _⟩ := hex
    rw [setGetElement_some, List.getElem?_eq_none_iff] at h
    obtain ⟨hjlen, _⟩ := List.getElem?_eq_some.mp hjv
    omega
  | case3 i v h hb =>
    intro i' hi' _
    cases hi'
    exact ⟨i, v, findLoop_hit beq s x i v h hb, h ▸ setGetElement_some s i ▸ rfl, hb⟩
  | case4 i v h hb hnext =>
    intro i' hi' hex
    cases hi'
    obtain ⟨j, w, hij, hjw, hbw⟩ := hex
    have hjlen : j < s.length := by
      rcases List.getElem?_eq_some.mp hjw with ⟨hj, _⟩
      exact hj
    have hnl : ¬ i + 1 < s.length := by
      intro hc
      simp [setGetNext, hc] at hnext
    have hji : j = i := by omega
    subst hji
    have : w = v := by
      rw [setGetElement_some] at h
      rw [h] at hjw
      exact (Option.some.inj hjw).symm
    subst this
    exact absurd hbw (by simpa using hb)
  | case5 i v h hb j hnext ih =>
    intro i' hi' hex
    cases hi'
    have hj : j = i + 1 ∧ i + 1 < s.length := by
      simp only [setGetNext] at hnext
      split at hnext
      · exact ⟨(Option.some.inj hnext).symm, by assumption⟩
      · exact absurd hnext (by simp)
    obtain ⟨j', w, hij, hjw, hbw⟩ := hex
    have hji : i + 1 ≤ j' := by
      rcases Nat.eq_or_lt_of_le hij with he | hl
      · exfalso
        rw [setGetElement_some] at h
        rw [← he, h] at hjw
        have : w = v := (Option.some.inj hjw).symm
        subst this
        exact absurd hbw (by simpa using hb)
      · omega
    rw [findLoop_miss_step beq s x i j v h (by simpa using hb) hnext]
    exact hj.1 ▸ ih j rfl ⟨j', w, hj.1 ▸ hji, hjw, hbw⟩

theorem find_found (beq : α → α → Bool) (s : List α) (x : α)
    (hex : ∃ e ∈ s, beq e x = true) :
    ∃ k : Nat, ∃ v : α,
      set.find beq s x = Except.ok { m_Owner := s, m_Current := some k } ∧
      s[k]? = some v ∧ beq v x = true := by
  obtain ⟨e, he, hbe⟩ := hex
  obtain ⟨j, hjlen, hje⟩ := List.mem_iff_getElem.mp he
  have hne : s ≠ [] := by
    intro hnil
    subst hnil
    simp at he
  unfold set.find set.begin setGetFirst
  rw [if_neg (by simpa using hne)]
  exact findLoop_found beq s x (some 0) 0 rfl
    ⟨j, e, Nat.zero_le j, by rw [List.getElem?_eq_getElem hjlen, hje], hbe⟩

theorem find_mem (beq : α → α → Bool) (s : List α) (x : α)
    (hb : LawfulEqv beq) (hx : x ∈ s) :
    ∃ k : Nat, set.find beq s x = Except.ok { m_Owner := s, m_Current := some k } ∧
      s[k]? = some x := by
  obtain ⟨k, v, hfind, hkv, hbv⟩ := find_found beq s x ⟨x, hx, (hb x x).mpr rfl⟩
  have : v = x := (hb v x).mp hbv
  subst this
  exact ⟨k, hfind, hkv⟩

theorem find_not_mem (beq : α → α → Bool) (s : List α) (x : α)
    (hb : LawfulEqv beq) (hx : x ∉ s) :
    set.find beq s x = Except.error SetError.elementNotFound := by
  refine find_not_found beq s x fun e he => ?_
  by_contra hc
  have : beq e x = true := by simpa using hc
  exact hx ((hb e x).mp this ▸ he)

theorem iterateAll_eq (s : List α) : iterateAll s = s := by
  unfold iterateAll set.begin setGetFirst
  cases s with
  | nil => simp [iterateFrom]
  | cons e rest =>
    simp only [List.isEmpty_cons, if_neg, Bool.false_eq_true, not_false_iff, ite_false]
    exact iterateFrom_eq_drop (e :: rest) (some 0) 0 rfl (by simp)

/-!  Further helper lemmas. -/

theorem foldl_setAdd_sorted (lt : α → α → Bool) (hst : StrictTotal lt) :
    ∀ vs : List α, ∀ s : List α, SortedLt lt s →
      SortedLt lt (vs.foldl (fun acc v => (setAdd lt true acc v).2) s) := by
  intro vs
  induction vs with
  | nil => intro s hs; exact hs
  | cons v rest ih =>
    intro s hs
    exact ih _ (setAdd_sorted lt hst true s v hs)

theorem setAdd_oom_frame (lt : α → α → Bool) (allocOk : Bool) :
    ∀ s : List α, ∀ x : α,
      (setAdd lt allocOk s x).1 = SetResult.SET_OUT_OF_MEMORY →
      (setAdd lt allocOk s x).2 = s := by
  intro s
  induction s with
  | nil =>
    intro x h
    cases allocOk with
    | true => simp [setAdd] at h
    | false => simp [setAdd]
  | cons e rest ih =>
    intro x h
    by_cases h1 : CompareElementFcn lt e x < 0
    · simp only [setAdd, h1, if_pos, if_true] at h ⊢
      rw [ih x h]
    · by_cases h2 : CompareElementFcn lt e x = 0
      · simp [setAdd, h1, h2] at h
      · cases allocOk with
        | true => simp [setAdd, h1, h2] at h
        | false => simp [setAdd, h1, h2]

theorem sorted_nodup (lt : α → α → Bool) (hirr : ∀ a, lt a a = false)
    (s : List α) (hs : SortedLt lt s) : s.Nodup := by
  refine hs.imp ?_
  intro a b hab hne
  subst hne
  rw [hirr a] at hab
  exact Bool.false_ne_true hab

theorem remove_mem_char (lt : α → α → Bool)
    (hirr : ∀ a, lt a a = false)
    (htot : ∀ a b, a ≠ b → lt a b = true ∨ lt b a = true)
    (s : List α) (x : α) (hs : SortedLt lt s) (hx : x ∈ s) :
    ∀ y, y ∈ (setRemove lt s x).2 ↔ y ∈ s ∧ y ≠ x := by
  obtain ⟨_, hperm, _⟩ := setRemove_mem lt hirr htot s x hs hx
  have hnd : (x :: (setRemove lt s x).2).Nodup :=
    hperm.nodup_iff.mpr (sorted_nodup lt hirr s hs)
  have hxnot : x ∉ (setRemove lt s x).2 := (List.nodup_cons.mp hnd).1
  intro y
  constructor
  · intro hy
    refine ⟨hperm.mem_iff.mp (List.mem_cons_of_mem x hy), ?_⟩
    intro he
    exact hxnot (he ▸ hy)
  · intro ⟨hy, hne⟩
    have : y ∈ x :: (setRemove lt s x).2 := hperm.mem_iff.mpr hy
    rcases List.mem_cons.mp this with h | h
    · exact absurd h hne
    · exact h

theorem findLoop_no_base (beq : α → α → Bool) (s : List α) (x : α) :
    ∀ cur, findLoop beq s x cur ≠ Except.error SetError.base := by
  intro cur
  induction cur using findLoop.induct beq s x with
  | case1 => rw [findLoop_none]; simp
  | case2 i h => rw [findLoop_elem_none beq s x i h]; simp
  | case3 i v h hb => rw [findLoop_hit beq s x i v h hb]; simp
  | case4 i v h hb hnext =>
    rw [findLoop_miss_last beq s x i v h (by simpa using hb) hnext]
    simp
  | case5 i v h hb j hnext ih =>
    rw [findLoop_miss_step beq s x i j v h (by simpa using hb) hnext]
    exact ih

theorem insert_state (lt beq : α → α → Bool) (allocOk : Bool)
    (s : List α) (v : α) :
    (set.insert lt beq allocOk s v).2 = (setAdd lt allocOk s v).2 := by
  by_cases h1 : (setAdd lt allocOk s v).1 = SetResult.SET_OUT_OF_MEMORY
  · simp [set.insert, h1]
  · by_cases h2 : (setAdd lt allocOk s v).1 = SetResult.SET_ITEM_ALREADY_EXISTS
    · simp [set.insert, h1, h2]
    · simp [set.insert, h1, h2]

theorem erase_state (lt : α → α → Bool) (s : List α) (x : α) :
    (set.erase lt s x).2 = (setRemove lt s x).2 := by
  by_cases h1 : (setRemove lt s x).1 = SetResult.SET_ITEM_DOES_NOT_EXIST
  · simp [set.erase, h1]
  · simp [set.erase, h1]

theorem erase_fail_frame (lt : α → α → Bool) (s : List α) (v : α)
    (err : SetError) (h : (set.erase lt s v).1 = Except.error err) :
    (set.erase lt s v).2 = s := by
  by_cases h1 : (setRemove lt s v).1 = SetResult.SET_ITEM_DOES_NOT_EXIST
  · rw [erase_state]
    exact setRemove_fail_frame lt s v h1
  · exfalso
    simp [set.erase, h1] at h

/-!  The claims. -/

/-- C3: find(v) walks positions from begin() toward end() comparing the
dereferenced value with v using operator== (beq).  When some stored element
compares equal, find returns a position owned by this set that dereferences
to that element; otherwise it raises ElementNotFound.  The const overload
behaves identically to the mutable one. -/
theorem claim_C3_find_walk (beq : α → α → Bool) (s : List α) (v : α) :
    ((∃ e ∈ s, beq e v = true) →
      ∃ k : Nat, ∃ w : α,
        set.find beq s v = Except.ok { m_Owner := s, m_Current := some k } ∧
        setGetElement s (some k) = some w ∧ beq w v = true ∧
        const_iterator.deref { m_Owner := s, m_Current := some k } =
          Except.ok w) ∧
    ((¬ ∃ e ∈ s, beq e v = true) →
      set.find beq s v = Except.error SetError.elementNotFound) ∧
    set.find_c beq s v = set.find beq s v := by
  refine ⟨?_, ?_, rfl⟩
  · intro hex
    obtain ⟨k, w, hfind, hkw, hbw⟩ := find_found beq s v hex
    refine ⟨k, w, hfind, hkw, hbw, ?_⟩
    simp [const_iterator.deref, setGetElement, hkw]
  · intro hnex
    refine find_not_found beq s v fun e he => ?_
    by_contra hc
    exact hnex ⟨e, he, by simpa using hc⟩

/-- Witness for C3 at a concrete input: the set \x7b10, 20\x7d with value 20
present and the same set with value 30 absent. -/
theorem claim_C3_find_walk_witness :
    ∃ k : Nat, ∃ w : Int,
      set.find (fun a b : Int => a == b) ([10, 20] : List Int) 20 =
        Except.ok { m_Owner := ([10, 20] : List Int), m_Current := some k } ∧
      setGetElement ([10, 20] : List Int) (some k) = some w ∧
      (w == (20 : Int)) = true ∧
      const_iterator.deref
        { m_Owner := ([10, 20] : List Int), m_Current := some k } =
        Except.ok w :=
  (claim_C3_find_walk (fun a b : Int => a == b) ([10, 20] : List Int) 20).1
    (by decide)

/-- C1: for every sequence of successful inserts into an initially empty
set (engine adds with the element copy succeeding), iterating from begin()
to end() visits the stored elements in strictly ascending order under the
comparison rule CmpFcn (lt) and no two visited elements compare equal under
the three-way comparison; the sequence of inserts being universally
quantified, the invariant holds at every observable point.  CmpFcn is
assumed to be a strict total order, as the spec requires of the caller. -/
theorem claim_C1_iteration_ascending (lt : α → α → Bool)
    (hst : StrictTotal lt) (vs : List α) :
    List.Pairwise (fun a b => lt a b = true)
      (iterateAll (vs.foldl (fun acc v => (setAdd lt true acc v).2) [])) ∧
    List.Pairwise (fun a b => CompareElementFcn lt a b ≠ 0)
      (iterateAll (vs.foldl (fun acc v => (setAdd lt true acc v).2) [])) := by
  have hsorted : SortedLt lt (vs.foldl (fun acc v => (setAdd lt true acc v).2) []) :=
    foldl_setAdd_sorted lt hst vs [] List.Pairwise.nil
  rw [iterateAll_eq]
  refine ⟨hsorted, hsorted.imp ?_⟩
  intro a b hab
  have : CompareElementFcn lt a b < 0 := (cmp_neg_iff lt a b).mpr hab
  omega

/-- Witness for C1 at a concrete input: inserting 2, 1, 3, 1 into an empty
set of integers. -/
theorem claim_C1_iteration_ascending_witness :
    List.Pairwise (fun a b => decide (a < b) = true)
      (iterateAll (([2, 1, 3, 1] : List Int).foldl
        (fun acc v => (setAdd (fun a b : Int => decide (a < b)) true acc v).2) [])) ∧
    List.Pairwise
      (fun a b => CompareElementFcn (fun a b : Int => decide (a < b)) a b ≠ 0)
      (iterateAll (([2, 1, 3, 1] : List Int).foldl
        (fun acc v => (setAdd (fun a b : Int => decide (a < b)) true acc v).2) [])) :=
  claim_C1_iteration_ascending (fun a b : Int => decide (a < b))
    ⟨fun a => by simp, fun a b c hab hbc => by
        simp only [decide_eq_true_eq] at hab hbc ⊢
        omega,
      fun a b hne => by
        simp only [decide_eq_true_eq]
        omega⟩
    [2, 1, 3, 1]

/-- C2: insert(v) submits the value to the engine add and then re-locates
it with find.  When no stored element compares equal to v, the value is
inserted (the new state holds exactly the old elements plus v, still
strictly ascending) and the call returns the located position of the new
element together with true.  When an equal element is stored, the state is
returned unchanged — same size and membership — and the call returns the
position of the existing element together with false.  The position in
both branches is the iterator produced by re-running find on the state the
engine add produced. -/
theorem claim_C2_insert (lt beq : α → α → Bool) (hst : StrictTotal lt)
    (hbeq : LawfulEqv beq) (s : List α) (v : α) (hs : SortedLt lt s) :
    ((¬ ∃ e ∈ s, CompareElementFcn lt e v = 0) →
      ∃ k : Nat,
        set.insert lt beq true s v =
          (Except.ok ({ m_Owner := (setAdd lt true s v).2, m_Current := some k },
            true), (setAdd lt true s v).2) ∧
        setGetElement (setAdd lt true s v).2 (some k) = some v ∧
        (setAdd lt true s v).2.Perm (v :: s) ∧
        SortedLt lt (setAdd lt true s v).2) ∧
    ((∃ e ∈ s, CompareElementFcn lt e v = 0) →
      ∃ k : Nat,
        set.insert lt beq true s v =
          (Except.ok ({ m_Owner := s, m_Current := some k }, false), s) ∧
        setGetElement s (some k) = some v) := by
  obtain ⟨hirr, htr, htot⟩ := hst
  constructor
  · intro hnex
    have hv : v ∉ s := by
      intro hc
      exact hnex ⟨v, hc, (cmp_zero_iff lt hirr htot v v).mpr rfl⟩
    obtain ⟨hres, hperm, hsorted⟩ := setAdd_not_mem lt htr htot s v hs hv
    have hvmem : v ∈ (setAdd lt true s v).2 :=
      hperm.mem_iff.mpr (List.mem_cons_self v s)
    obtain ⟨k, hfind, hk⟩ := find_mem beq (setAdd lt true s v).2 v hbeq hvmem
    refine ⟨k, ?_, hk, hperm, hsorted⟩
    simp [set.insert, hres, hfind]
  · intro hex
    obtain ⟨e, he, hcmp⟩ := hex
    have hev : e = v := (cmp_zero_iff lt hirr htot e v).mp hcmp
    subst hev
    have hadd : setAdd lt true s e = (SetResult.SET_ITEM_ALREADY_EXISTS, s) :=
      setAdd_mem lt hirr true s e hs he
    obtain ⟨k, hfind, hk⟩ := find_mem beq s e hbeq he
    refine ⟨k, ?_, hk⟩
    simp [set.insert, hadd, hfind]

/-- Witness for C2 at concrete inputs: inserting 2 into the set \x7b1, 3\x7d
(absent) and inserting 3 into the same set (present). -/
theorem claim_C2_insert_witness :
    (∃ k : Nat,
      set.insert (fun a b : Int => decide (a < b)) (fun a b : Int => a == b)
          true ([1, 3] : List Int) 2 =
        (Except.ok (const_iterator.mk
            (setAdd (fun a b : Int => decide (a < b)) true ([1, 3] : List Int) 2).2
            (some k), true),
          (setAdd (fun a b : Int => decide (a < b)) true ([1, 3] : List Int) 2).2) ∧
      setGetElement
        (setAdd (fun a b : Int => decide (a < b)) true ([1, 3] : List Int) 2).2
        (some k) = some 2 ∧
      (setAdd (fun a b : Int => decide (a < b)) true
        ([1, 3] : List Int) 2).2.Perm (2 :: [1, 3]) ∧
      SortedLt (fun a b : Int => decide (a < b))
        (setAdd (fun a b : Int => decide (a < b)) true ([1, 3] : List Int) 2).2) ∧
    (∃ k : Nat,
      set.insert (fun a b : Int => decide (a < b)) (fun a b : Int => a == b)
          true ([1, 3] : List Int) 3 =
        (Except.ok ({ m_Owner := ([1, 3] : List Int), m_Current := some k },
          false), ([1, 3] : List Int)) ∧
      setGetElement ([1, 3] : List Int) (some k) = some 3) := by
  have hst : StrictTotal (fun a b : Int => decide (a < b)) :=
    ⟨fun a => by simp, fun a b c hab hbc => by
        simp only [decide_eq_true_eq] at hab hbc ⊢
        omega,
      fun a b hne => by
        simp only [decide_eq_true_eq]
        omega⟩
  have hbeq : LawfulEqv (fun a b : Int => a == b) := fun a b => by simp
  exact ⟨(claim_C2_insert (fun a b : Int => decide (a < b))
      (fun a b : Int => a == b) hst hbeq ([1, 3] : List Int) 2
      (by unfold SortedLt; decide)).1 (by decide),
    (claim_C2_insert (fun a b : Int => decide (a < b))
      (fun a b : Int => a == b) hst hbeq ([1, 3] : List Int) 3
      (by unfold SortedLt; decide)).2 (by decide)⟩

/-- C4: erase(v) with an equal element stored removes exactly that element
(the remaining elements are the old ones without v), so that a subsequent
find(v) raises ElementNotFound; with no equal element stored, the engine
reports ItemDoesNotExist, which erase translates into a raised
ElementNotFound, and the container is unchanged. -/
theorem claim_C4_erase_value (lt beq : α → α → Bool) (hst : StrictTotal lt)
    (hbeq : LawfulEqv beq) (s : List α) (v : α) (hs : SortedLt lt s) :
    ((∃ e ∈ s, CompareElementFcn lt e v = 0) →
      (set.erase lt s v).1 = Except.ok () ∧
      (v :: (set.erase lt s v).2).Perm s ∧
      set.find beq (set.erase lt s v).2 v =
        Except.error SetError.elementNotFound) ∧
    ((¬ ∃ e ∈ s, CompareElementFcn lt e v = 0) →
      set.erase lt s v = (Except.error SetError.elementNotFound, s)) := by
  obtain ⟨hirr, htr, htot⟩ := hst
  constructor
  · intro hex
    obtain ⟨e, he, hcmp⟩ := hex
    have hev : e = v := (cmp_zero_iff lt hirr htot e v).mp hcmp
    subst hev
    obtain ⟨hres, hperm, _⟩ := setRemove_mem lt hirr htot s e hs he
    have hnd : (e :: (setRemove lt s e).2).Nodup :=
      hperm.nodup_iff.mpr (sorted_nodup lt hirr s hs)
    have hnot : e ∉ (setRemove lt s e).2 := (List.nodup_cons.mp hnd).1
    have herase : set.erase lt s e = (Except.ok (), (setRemove lt s e).2) := by
      simp [set.erase, hres]
    refine ⟨?_, ?_, ?_⟩
    · rw [herase]
    · rw [herase]
      exact hperm
    · rw [herase]
      exact find_not_mem beq (setRemove lt s e).2 e hbeq hnot
  · intro hnex
    have hall : ∀ e ∈ s, CompareElementFcn lt e v ≠ 0 := by
      intro e he hc
      exact hnex ⟨e, he, hc⟩
    unfold set.erase
    rw [setRemove_not_mem lt s v hall]
    rfl

/-- Witness for C4 at concrete inputs: erasing 2 from the set \x7b1, 2, 3\x7d
(present) and erasing 5 from the same set (absent). -/
theorem claim_C4_erase_value_witness :
    ((set.erase (fun a b : Int => decide (a < b)) ([1, 2, 3] : List Int) 2).1 =
        Except.ok () ∧
      ((2 : Int) ::
        (set.erase (fun a b : Int => decide (a < b))
          ([1, 2, 3] : List Int) 2).2).Perm [1, 2, 3] ∧
      set.find (fun a b : Int => a == b)
          (set.erase (fun a b : Int => decide (a < b))
            ([1, 2, 3] : List Int) 2).2 2 =
        Except.error SetError.elementNotFound) ∧
    set.erase (fun a b : Int => decide (a < b)) ([1, 2, 3] : List Int) 5 =
      (Except.error SetError.elementNotFound, ([1, 2, 3] : List Int)) := by
  have hst : StrictTotal (fun a b : Int => decide (a < b)) :=
    ⟨fun a => by simp, fun a b c hab hbc => by
        simp only [decide_eq_true_eq] at hab hbc ⊢
        omega,
      fun a b hne => by
        simp only [decide_eq_true_eq]
        omega⟩
  have hbeq : LawfulEqv (fun a b : Int => a == b) := fun a b => by simp
  exact ⟨(claim_C4_erase_value (fun a b : Int => decide (a < b))
      (fun a b : Int => a == b) hst hbeq ([1, 2, 3] : List Int) 2
      (by unfold SortedLt; decide)).1 (by decide),
    (claim_C4_erase_value (fun a b : Int => decide (a < b))
      (fun a b : Int => a == b) hst hbeq ([1, 2, 3] : List Int) 5
      (by unfold SortedLt; decide)).2 (by decide)⟩

/-- C5: erase(position) first dereferences the position and then erases by
the obtained value; when the position does not dereference to an element
(invalid or past the end), it raises InvalidIterator — not ElementNotFound —
and the container is unchanged. -/
theorem claim_C5_erase_iterator (lt : α → α → Bool) (s : List α)
    (iter : const_iterator α) :
    (setGetElement iter.m_Owner iter.m_Current = none →
      set.eraseIter lt s iter = (Except.error SetError.invalidIterator, s)) ∧
    (∀ v, setGetElement iter.m_Owner iter.m_Current = some v →
      set.eraseIter lt s iter = set.erase lt s v) := by
  constructor
  · intro h
    unfold set.eraseIter const_iterator.deref
    rw [h]
  · intro v h
    unfold set.eraseIter const_iterator.deref
    rw [h]

/-- Witness for C5 at a concrete input: erasing through the past-the-end
iterator of the set \x7b7\x7d raises InvalidIterator and leaves the set
unchanged, and erasing through a valid iterator erases by the dereferenced
value. -/
theorem claim_C5_erase_iterator_witness :
    set.eraseIter (fun a b : Int => decide (a < b)) [7]
        (set.endIter [7]) = (Except.error SetError.invalidIterator, [7]) ∧
    set.eraseIter (fun a b : Int => decide (a < b)) [7]
        (set.begin [7]) = set.erase (fun a b : Int => decide (a < b)) [7] 7 :=
  ⟨(claim_C5_erase_iterator (fun a b : Int => decide (a < b)) [7]
      (set.endIter [7])).1 (by rw [endIter_current]; rfl),
   (claim_C5_erase_iterator (fun a b : Int => decide (a < b)) [7]
      (set.begin [7])).2 7 (by rfl)⟩

/-- C6: copy construction performs a full deep copy (setCopy duplicates
every element through the copy trampoline), giving a state with exactly the
membership and size of the source.  Mutating the original then never
changes the copy, and mutating the copy never changes the original —
observably: erasing a value from one of the two leaves it absent there
while the other instance still contains it, with the sizes differing by
exactly one.  In this value-semantics embedding the two instances are
independent values, so the isolation of the copy is witnessed by the erase
producing a new state while the other instance keeps its elements. -/
theorem claim_C6_deep_copy_isolation (lt : α → α → Bool)
    (hst : StrictTotal lt) (s c : List α) (hs : SortedLt lt s)
    (hcopy : set.copyCtor (@CopyElementFcn α) true s = Except.ok c) :
    (∀ y, y ∈ c ↔ y ∈ s) ∧ set.size c = set.size s ∧
    (∀ v, (∃ e ∈ s, CompareElementFcn lt e v = 0) →
      v ∈ c ∧
      (∀ y, y ∈ (set.erase lt s v).2 ↔ y ∈ s ∧ y ≠ v) ∧
      set.size (set.erase lt s v).2 = set.size s - 1) ∧
    (∀ v, (∃ e ∈ c, CompareElementFcn lt e v = 0) →
      v ∈ s ∧
      (∀ y, y ∈ (set.erase lt c v).2 ↔ y ∈ c ∧ y ≠ v) ∧
      set.size (set.erase lt c v).2 = set.size c - 1) := by
  obtain ⟨hirr, htr, htot⟩ := hst
  have hcs : c = s := by
    unfold set.copyCtor setCopy at hcopy
    simp only [if_pos, ite_true] at hcopy
    have : s.map CopyElementFcn = c := Except.ok.inj hcopy
    rw [← this]
    unfold CopyElementFcn
    exact List.map_id' s
  subst hcs
  have hmain : ∀ v, (∃ e ∈ c, CompareElementFcn lt e v = 0) →
      v ∈ c ∧
      (∀ y, y ∈ (set.erase lt c v).2 ↔ y ∈ c ∧ y ≠ v) ∧
      set.size (set.erase lt c v).2 = set.size c - 1 := by
    intro v hex
    obtain ⟨e, he, hcmp⟩ := hex
    have hev : e = v := (cmp_zero_iff lt hirr htot e v).mp hcmp
    subst hev
    obtain ⟨_, hperm, _⟩ := setRemove_mem lt hirr htot c e hs he
    refine ⟨he, ?_, ?_⟩
    · intro y
      rw [erase_state]
      exact remove_mem_char lt hirr htot c e hs he y
    · rw [erase_state]
      have hlen : (e :: (setRemove lt c e).2).length = c.length :=
        hperm.length_eq
      simp only [List.length_cons] at hlen
      unfold set.size setGetSize
      omega
  exact ⟨fun y => Iff.rfl, rfl, hmain, hmain⟩

/-- Witness for C6 at a concrete input: copying the set \x7b1, 2\x7d and
erasing 2. -/
theorem claim_C6_deep_copy_isolation_witness :
    (∀ y, y ∈ ([1, 2] : List Int) ↔ y ∈ ([1, 2] : List Int)) ∧
    set.size ([1, 2] : List Int) = set.size ([1, 2] : List Int) ∧
    (∀ v, (∃ e ∈ ([1, 2] : List Int),
        CompareElementFcn (fun a b : Int => decide (a < b)) e v = 0) →
      v ∈ ([1, 2] : List Int) ∧
      (∀ y, y ∈ (set.erase (fun a b : Int => decide (a < b))
          ([1, 2] : List Int) v).2 ↔ y ∈ ([1, 2] : List Int) ∧ y ≠ v) ∧
      set.size (set.erase (fun a b : Int => decide (a < b))
          ([1, 2] : List Int) v).2 = set.size ([1, 2] : List Int) - 1) ∧
    (∀ v, (∃ e ∈ ([1, 2] : List Int),
        CompareElementFcn (fun a b : Int => decide (a < b)) e v = 0) →
      v ∈ ([1, 2] : List Int) ∧
      (∀ y, y ∈ (set.erase (fun a b : Int => decide (a < b))
          ([1, 2] : List Int) v).2 ↔ y ∈ ([1, 2] : List Int) ∧ y ≠ v) ∧
      set.size (set.erase (fun a b : Int => decide (a < b))
          ([1, 2] : List Int) v).2 = set.size ([1, 2] : List Int) - 1) :=
  claim_C6_deep_copy_isolation (fun a b : Int => decide (a < b))
    ⟨fun a => by simp, fun a b c hab hbc => by
        simp only [decide_eq_true_eq] at hab hbc ⊢
        omega,
      fun a b hne => by
        simp only [decide_eq_true_eq]
        omega⟩
    [1, 2] [1, 2] (by unfold SortedLt; decide) rfl

/-- C7: every raised failure leaves the container in a well-defined state:
either unchanged, or fully reflecting the mutation that completed before
the raise.  Insert: a raised base Exception (engine OutOfMemory) leaves the
state unchanged; any raised failure leaves the state either unchanged or
equal to the state the completed engine add produced.  Erase, by value or
by position: a raised failure leaves the state unchanged.  Copy assignment:
a raised base Exception (allocation failure in setCopy) leaves the
null-handle state that the already-completed setDestroy produced. -/
theorem claim_C7_raise_state (lt beq : α → α → Bool) (allocOk : Bool)
    (s : List α) (v : α) :
    ((set.insert lt beq allocOk s v).1 = Except.error SetError.base →
      (set.insert lt beq allocOk s v).2 = s) ∧
    (∀ err, (set.insert lt beq allocOk s v).1 = Except.error err →
      (set.insert lt beq allocOk s v).2 = s ∨
      ((set.insert lt beq allocOk s v).2 = (setAdd lt allocOk s v).2 ∧
        (setAdd lt allocOk s v).1 ≠ SetResult.SET_OUT_OF_MEMORY)) ∧
    (∀ err, (set.erase lt s v).1 = Except.error err →
      (set.erase lt s v).2 = s) ∧
    (∀ iter : const_iterator α, ∀ err,
      (set.eraseIter lt s iter).1 = Except.error err →
      (set.eraseIter lt s iter).2 = s) ∧
    (∀ copyElement : α → α, ∀ selfAssign : Bool, ∀ target : Option (List α),
      ∀ source : List α, ∀ err,
      (set.assign copyElement allocOk selfAssign target source).1 =
        Except.error err →
      (set.assign copyElement allocOk selfAssign target source).2 = none) := by
  refine ⟨?_, ?_, ?_, ?_, ?_⟩
  · -- insert, base Exception: the engine add reported OutOfMemory and left
    -- the state unchanged; the re-locating find never raises base.
    intro hbase
    by_cases h1 : (setAdd lt allocOk s v).1 = SetResult.SET_OUT_OF_MEMORY
    · rw [insert_state]
      exact setAdd_oom_frame lt allocOk s v h1
    · exfalso
      by_cases h2 : (setAdd lt allocOk s v).1 = SetResult.SET_ITEM_ALREADY_EXISTS
      · simp only [set.insert, h1, h2, ite_true, ite_false, if_neg, if_pos,
          reduceCtorEq] at hbase
        cases hfind : set.find beq (setAdd lt allocOk s v).2 v with
        | error e =>
          rw [hfind] at hbase
          have : e = SetError.base := by
            simpa using hbase
          exact findLoop_no_base beq (setAdd lt allocOk s v).2 v _ (this ▸ hfind)
        | ok it =>
          rw [hfind] at hbase
          simp at hbase
      · simp only [set.insert, h1, h2, ite_true, ite_false, if_neg, if_pos,
          reduceCtorEq] at hbase
        cases hfind : set.find beq (setAdd lt allocOk s v).2 v with
        | error e =>
          rw [hfind] at hbase
          have : e = SetError.base := by
            simpa using hbase
          exact findLoop_no_base beq (setAdd lt allocOk s v).2 v _ (this ▸ hfind)
        | ok it =>
          rw [hfind] at hbase
          simp at hbase
  · -- insert, any raised failure: unchanged, or the completed add state.
    intro err _
    by_cases h1 : (setAdd lt allocOk s v).1 = SetResult.SET_OUT_OF_MEMORY
    · exact Or.inl ((insert_state lt beq allocOk s v).trans
        (setAdd_oom_frame lt allocOk s v h1))
    · exact Or.inr ⟨insert_state lt beq allocOk s v, h1⟩
  · -- erase by value.
    intro err h
    exact erase_fail_frame lt s v err h
  · -- erase by position.
    intro iter err h
    unfold set.eraseIter at h ⊢
    cases hd : const_iterator.deref iter with
    | error e => rfl
    | ok w =>
      rw [hd] at h
      exact erase_fail_frame lt s w err h
  · -- copy assignment.
    intro copyElement selfAssign target source err h
    cases selfAssign with
    | true => simp [set.assign] at h
    | false =>
      cases allocOk with
      | true => simp [set.assign, setCopy] at h
      | false => simp [set.assign, setCopy]

/-- Witness for C7 at concrete inputs: an insert whose engine add runs out
of memory leaves the set unchanged, and a copy assignment whose setCopy
fails leaves the null handle behind. -/
theorem claim_C7_raise_state_witness :
    (set.insert (fun a b : Int => decide (a < b)) (fun a b : Int => a == b)
      false ([] : List Int) 0).2 = ([] : List Int) ∧
    (set.assign (@CopyElementFcn Int) false false (some [5]) [7]).2 = none :=
  ⟨(claim_C7_raise_state (fun a b : Int => decide (a < b))
      (fun a b : Int => a == b) false ([] : List Int) 0).1 rfl,
    (claim_C7_raise_state (fun a b : Int => decide (a < b))
      (fun a b : Int => a == b) false ([5] : List Int) 0).2.2.2.2
      (@CopyElementFcn Int) false (some [5]) [7] SetError.base rfl⟩

/-- C8: after clear(), size() returns 0 and find(v) raises ElementNotFound
for every value v. -/
theorem claim_C8_clear (beq : α → α → Bool) (s : List α) (v : α) :
    set.size (set.clear s) = 0 ∧
    set.find beq (set.clear s) v = Except.error SetError.elementNotFound := by
  constructor
  · rfl
  · exact find_not_found beq [] v (by simp)

/-- C9: self-assignment is guarded as a no-op: it returns without raising,
leaves the owned engine handle exactly as it was (hence size and membership
unchanged), and this holds even when an allocation would fail. -/
theorem claim_C9_self_assignment (copyElement : α → α) (allocOk : Bool)
    (target : Option (List α)) (source : List α) :
    set.assign copyElement allocOk true target source =
      (Except.ok (), target) := rfl

/-- C10: iterator equality compares only the engine-internal position
m_Current and ignores the owning set: end() iterators of any two sets
compare equal, and any two iterators with the same internal position
compare equal even when issued by different sets. -/
theorem claim_C10_iterator_equality {β : Type} (s1 s2 : List α)
    (i1 i2 : const_iterator β) (h : i1.m_Current = i2.m_Current) :
    const_iterator.eq (set.endIter s1) (set.endIter s2) = true ∧
    const_iterator.eq i1 i2 = true := by
  constructor
  · simp [const_iterator.eq, endIter_current]
  · simp [const_iterator.eq, h]

/-- Witness for C10 at concrete inputs: the end() iterators of the distinct
sets \x7b1\x7d and \x7b2, 3\x7d compare equal, and two iterators with owners
\x7b5\x7d and \x7b6\x7d but the same position compare equal. -/
theorem claim_C10_iterator_equality_witness :
    const_iterator.eq (set.endIter [(1 : Int)]) (set.endIter [2, 3]) = true ∧
    const_iterator.eq { m_Owner := [(5 : Int)], m_Current := some 0 }
      { m_Owner := [(6 : Int)], m_Current := some 0 } = true :=
  claim_C10_iterator_equality [(1 : Int)] [2, 3]
    { m_Owner := [(5 : Int)], m_Current := some 0 }
    { m_Owner := [(6 : Int)], m_Current := some 0 } rfl

end mtm
